import Mathlib

/-!
Custom response encoder of the database proxy (`lib/dbproxy/encoder.go`).

A shallow embedding of the encoder of custom MySQL wire-protocol responses:
the error packet, the key/value rows result set, the OK packet and the
query replacement, followed by the properties proved about them.

Conventions of the embedding.

* A byte is a natural number; every place where the Go code narrows an
  integer (`uint8(..)`, `uint32(..)`, the `uint` counter) reduces modulo the
  width explicitly.
* A Go `string` and a `[]byte` that is only read or freshly built is the list
  of its bytes.  The original request of the query replacement is re-sliced
  (`originalRequest[:5]`), which Go bounds by the capacity of the slice and
  not by its length, so that one slice keeps the part of its backing array
  that lies between its length and its capacity (`ByteSlice`).
* A pointer field is an `Option`; dereferencing `nil` panics, and a panic is
  the result `none`.
* Methods with a pointer receiver that assign to the receiver return the
  updated receiver next to their result.
-/

namespace dbproxy

/-- One octet, kept as a natural number below 256. -/
abbrev Byte := Nat

/-- Go conversion `uint8(v)`. -/
def uint8 (v : Nat) : Byte := v % 256

/-- Go conversion `uint32(v)` of a non-negative integer. -/
def uint32 (v : Nat) : Nat := v % 2 ^ 32

/-- Number of values of Go's `uint` (64 bits wide on 64-bit targets). -/
def uintSize : Nat := 2 ^ 64

/-- The two bytes written by `binary.LittleEndian.PutUint16`. -/
def putUint16 (v : Nat) : List Byte := [v % 256, v / 256 % 256]

/-- The four bytes written by `binary.LittleEndian.PutUint32`. -/
def putUint32 (v : Nat) : List Byte :=
  [v % 256, v / 256 % 256, v / 65536 % 256, v / 16777216 % 256]

/-- Bytes of an ASCII string literal of the source, as `[]byte("...")` gives them. -/
def literal (s : String) : List Byte := s.toList.map Char.toNat

/-- Modelled from the spec: the constant `responseErr` is declared outside
`encoder.go`; the spec gives the marker byte of an error payload as `0xFF`. -/
def responseErr : Byte := 0xff

/-- Modelled from the spec: `handshakeResponse41` is declared outside
`encoder.go`; the encoder reads only its capability flags. -/
structure handshakeResponse41 where
  ClientCapabilities : Nat
deriving DecidableEq, Repr

/-- Modelled from the spec: `handshakeV10` is declared outside `encoder.go`;
the encoder reads only its capability flags. -/
structure handshakeV10 where
  ServerCapabilities : Nat
deriving DecidableEq, Repr

/-- Modelled from the spec: `CustomResponseKeyValue` is declared outside
`encoder.go`; a row is an ordered pair of strings, read as `row.Key` and
`row.Value`. -/
structure CustomResponseKeyValue where
  Key : List Byte
  Value : List Byte
deriving DecidableEq, Repr

structure protocolInfo where
  protocolVersion : Byte
  clientInfo : Option handshakeResponse41
  serverInfo : Option handshakeV10
deriving DecidableEq, Repr

structure customResponseError where
  Message : List Byte
  Code : Nat
deriving DecidableEq, Repr

structure customResponseRowsKeyValues where
  rows : List CustomResponseKeyValue
  counter : Nat
  protocol : Option protocolInfo
deriving DecidableEq, Repr

structure customResponseOK where
  protocol : Option protocolInfo
  rowsUpdated : Nat
deriving DecidableEq, Repr

/-- A Go byte slice whose capacity matters: `elems` are its `len` elements,
`spare` the `cap - len` bytes of the backing array that follow them. -/
structure ByteSlice where
  elems : List Byte
  spare : List Byte
deriving DecidableEq, Repr

/-- Go `len(s)`. -/
def ByteSlice.len (s : ByteSlice) : Nat := s.elems.length

/-- Go `cap(s)`. -/
def ByteSlice.cap (s : ByteSlice) : Nat := s.elems.length + s.spare.length

/-- Go slice expression `s[:n]`: in range when `n ≤ cap(s)`, a run-time
panic otherwise. -/
def ByteSlice.sliceTo (s : ByteSlice) (n : Nat) : Option ByteSlice :=
  if n ≤ s.cap then
    some { elems := (s.elems ++ s.spare).take n, spare := (s.elems ++ s.spare).drop n }
  else none

structure customResponseReplaceQuery where
  protocol : Option protocolInfo
  replaceQuery : List Byte
  originalRequest : ByteSlice
deriving DecidableEq, Repr

/-! ## Error response -/

def customResponseError.getPacket (e : customResponseError) : List Byte :=
  let errBytes := e.Message
  let payloadLen := errBytes.length + 3
  let bs := putUint16 (e.Code % 2 ^ 16)
  let length := putUint32 (uint32 payloadLen)
  let res := [length.getD 0 0, length.getD 1 0, length.getD 2 0, 1, responseErr,
    bs.getD 0 0, bs.getD 1 0]
  res ++ errBytes

/-! ## Key/value rows response -/

/-- Make a payload a packet of the sequence: bump the counter, then emit the
length header, the sequence byte and the payload. -/
def customResponseRowsKeyValues.completePacket (r : customResponseRowsKeyValues)
    (data : List Byte) : customResponseRowsKeyValues × List Byte :=
  let r := { r with counter := (r.counter + 1) % uintSize }
  let length := putUint32 (uint32 data.length)
  let res := [length.getD 0 0, length.getD 1 0, length.getD 2 0, uint8 r.counter]
  (r, res ++ data)

/-- Length-encoded string of the MySQL protocol (the receiver is not used). -/
def getLengEncStr (data : List Byte) : List Byte :=
  let str := data
  let length := str.length
  let res : List Byte :=
    if length > 251 then
      let lb := putUint32 (uint32 length)
      [0xfc, lb.getD 0 0, lb.getD 1 0]
    else
      [] ++ [uint8 length]
  res ++ str

def customResponseRowsKeyValues.getColumnDefPacket (r : customResponseRowsKeyValues)
    (schema table column : List Byte) : customResponseRowsKeyValues × List Byte :=
  let b : List Byte := []
  let b := b ++ getLengEncStr (literal "def")
  let b := b ++ getLengEncStr schema
  let b := b ++ getLengEncStr table
  let b := b ++ getLengEncStr table
  let b := b ++ getLengEncStr column
  let b := b ++ getLengEncStr column
  let b := b ++ [0x0c]
  let b := b ++ [0x21, 0x00, 0xfd, 0xff, 0x02, 0x00]
  let b := b ++ [0xfc]
  let b := b ++ [0x10, 0x00, 0x00, 0x00, 0x00]
  r.completePacket b

/-- Row packet: the two length-encoded strings, framed. -/
def customResponseRowsKeyValues.getRowData (r : customResponseRowsKeyValues)
    (val1 val2 : List Byte) : customResponseRowsKeyValues × List Byte :=
  let row := getLengEncStr val1
  let row := row ++ getLengEncStr val2
  r.completePacket row

/-! ## Protocol detection -/

/-- Capability test; the mask `clientDeprecateEOF` is a constant declared
outside `encoder.go` and is a parameter here.  The `&&` of the source
evaluates the server side first and the client side only when the server bit
is set. -/
def protocolInfo.deprecateEOFSet (clientDeprecateEOF : Nat) (p : protocolInfo) :
    Option Bool :=
  match p.serverInfo with
  | none => none
  | some s =>
    if (clientDeprecateEOF &&& s.ServerCapabilities) != 0 then
      match p.clientInfo with
      | none => none
      | some c => some ((clientDeprecateEOF &&& c.ClientCapabilities) != 0)
    else some false

def protocolInfo.clientTransactionsSet (clientDeprecateEOF : Nat) (p : protocolInfo) :
    Option Bool :=
  match p.serverInfo with
  | none => none
  | some s =>
    if (clientDeprecateEOF &&& s.ServerCapabilities) != 0 then
      match p.clientInfo with
      | none => none
      | some c => some ((clientDeprecateEOF &&& c.ClientCapabilities) != 0)
    else some false

/-- The loop `for _, row := range r.rows` of `getPacket`, writing one row
packet after the other to the buffer `b`. -/
def customResponseRowsKeyValues.writeRows (r : customResponseRowsKeyValues)
    (b : List Byte) : List CustomResponseKeyValue → customResponseRowsKeyValues × List Byte
  | [] => (r, b)
  | row :: rest =>
    let (r, pkt) := r.getRowData row.Key row.Value
    r.writeRows (b ++ pkt) rest

/-- Response packet with the list of rows.  `none` is the nil-pointer panic
of `r.protocol.deprecateEOFSet()`. -/
def customResponseRowsKeyValues.getPacket (clientDeprecateEOF : Nat)
    (r : customResponseRowsKeyValues) : Option (customResponseRowsKeyValues × List Byte) := do
  let r := { r with counter := 0 }
  let b : List Byte := []
  let (r, pkt) := r.completePacket [2]
  let b := b ++ pkt
  let (r, pkt) := r.getColumnDefPacket (literal "BC") (literal "CustomResponse") (literal "Key")
  let b := b ++ pkt
  let (r, pkt) := r.getColumnDefPacket (literal "BC") (literal "CustomResponse") (literal "Value")
  let b := b ++ pkt
  let p ← r.protocol
  let dep ← p.deprecateEOFSet clientDeprecateEOF
  let (r, b) :=
    if !dep then
      let (r, pkt) := r.completePacket [0xfe, 0x00, 0x00, 0x22, 0x00, 0x00, 0x00]
      (r, b ++ pkt)
    else (r, b)
  let (r, b) := r.writeRows b r.rows
  let p ← r.protocol
  let dep ← p.deprecateEOFSet clientDeprecateEOF
  let (r, b) :=
    if !dep then
      let (r, pkt) := r.completePacket [0xfe, 0x00, 0x00, 0x22, 0x00, 0x00, 0x00]
      (r, b ++ pkt)
    else
      let (r, pkt) := r.completePacket [0xfe, 0x00, 0x00, 0x22, 0x00]
      (r, b ++ pkt)
  some (r, b)

def customResponseRowsKeyValues.setProtocolInfo (r : customResponseRowsKeyValues)
    (pi : protocolInfo) : customResponseRowsKeyValues :=
  { r with protocol := some pi }

/-! ## OK response -/

def customResponseOK.getPacket (_r : customResponseOK) : List Byte :=
  [0x05, 0x00, 0x00, 0x01, 0xfe, 0x00, 0x00, 0x22, 0x00]

def customResponseOK.setProtocolInfo (r : customResponseOK) (pi : protocolInfo) :
    customResponseOK :=
  { r with protocol := some pi }

/-! ## Replace query -/

/-- Rewrite of the request.  `none` is the panic of `originalRequest[:5]`.
After the re-slice `len(p) ≥ 5`, so `len(p) - 4` is not negative; `append`
yields the five kept bytes followed by the query whether or not it
reallocates, and the two assignments change bytes 0 and 1 of that result. -/
def customResponseReplaceQuery.getPacket (r : customResponseReplaceQuery) :
    Option (List Byte) :=
  match r.originalRequest.sliceTo 5 with
  | none => none
  | some p =>
    let p := p.elems ++ r.replaceQuery
    let l := p.length - 4
    let lb := putUint32 (uint32 l)
    let p := p.set 0 (lb.getD 0 0)
    let p := p.set 1 (lb.getD 1 0)
    some p

def customResponseReplaceQuery.setProtocolInfo (r : customResponseReplaceQuery)
    (pi : protocolInfo) : customResponseReplaceQuery :=
  { r with protocol := some pi }

/-- The expression `p[:]` keeps both the length and the capacity of `p`. -/
def customResponseReplaceQuery.setOriginalRequest (r : customResponseReplaceQuery)
    (p : ByteSlice) : customResponseReplaceQuery :=
  { r with originalRequest := p }

/-! ## Reference definitions, written from the specification -/

/-- Reference length-encoded string: one length byte up to 251 bytes, else
the byte `0xFC` and the length as two little-endian bytes. -/
def refLengEncStr (s : List Byte) : List Byte :=
  if s.length ≤ 251 then s.length :: s
  else 0xFC :: s.length % 256 :: s.length / 256 :: s

/-- The 3-byte little-endian integer held in bytes 0..2 of a packet. -/
def headerLength (pkt : List Byte) : Nat :=
  pkt.getD 0 0 + 256 * pkt.getD 1 0 + 65536 * pkt.getD 2 0

/-- Payload of the legacy EOF packet. -/
def legacyEOF : List Byte := [0xFE, 0x00, 0x00, 0x22, 0x00, 0x00, 0x00]

/-- Payload of the short acknowledgement packet. -/
def shortOK : List Byte := [0xFE, 0x00, 0x00, 0x22, 0x00]

/-- Payload of a column definition packet. -/
def columnDefPayload (schema table column : List Byte) : List Byte :=
  getLengEncStr (literal "def") ++ getLengEncStr schema ++ getLengEncStr table ++
    getLengEncStr table ++ getLengEncStr column ++ getLengEncStr column ++
    [0x0C] ++ [0x21, 0x00, 0xFD, 0xFF, 0x02, 0x00] ++ [0xFC] ++ [0x10, 0x00, 0x00, 0x00, 0x00]

/-- Payload of a row packet: the key, then the value, each length-encoded. -/
def rowPayload (row : CustomResponseKeyValue) : List Byte :=
  getLengEncStr row.Key ++ getLengEncStr row.Value

/-- Frame the payloads one after the other with `completePacket`, keeping
the packets apart. -/
def framePackets (r : customResponseRowsKeyValues) :
    List (List Byte) → customResponseRowsKeyValues × List (List Byte)
  | [] => (r, [])
  | d :: ds =>
    ((framePackets (r.completePacket d).1 ds).1,
      (r.completePacket d).2 :: (framePackets (r.completePacket d).1 ds).2)

/-- Payloads of a key/value result set, in order: the column count, the two
column definitions, the legacy EOF unless deprecated, the rows, and the
terminator. -/
def resultSetPayloads (dep : Bool) (rows : List CustomResponseKeyValue) : List (List Byte) :=
  [[0x02], columnDefPayload (literal "BC") (literal "CustomResponse") (literal "Key"),
    columnDefPayload (literal "BC") (literal "CustomResponse") (literal "Value")] ++
  (if dep then [] else [legacyEOF]) ++ rows.map rowPayload ++
  [if dep then shortOK else legacyEOF]

/-- Packets that `getPacket` writes to its buffer, one entry per `b.Write`. -/
def emittedPackets (clientDeprecateEOF : Nat) (r : customResponseRowsKeyValues) :
    Option (List (List Byte)) :=
  match r.protocol with
  | none => none
  | some p =>
    match p.deprecateEOFSet clientDeprecateEOF with
    | none => none
    | some dep => some (framePackets { r with counter := 0 } (resultSetPayloads dep r.rows)).2

/-- Sequence-id byte of a packet (byte 3 of its header). -/
def sequenceId (pkt : List Byte) : Byte := pkt.getD 3 0

/-! ## Reference decoder of a key/value result set -/

/-- Split a byte stream into the payloads of its packets: each packet is a
3-byte little-endian length, one sequence byte and that many payload bytes.
The first argument bounds the number of packets read. -/
def splitPackets : Nat → List Byte → Option (List (List Byte))
  | _, [] => some []
  | 0, _ :: _ => none
  | fuel + 1, b0 :: b1 :: b2 :: _ :: rest =>
    if b0 + 256 * b1 + 65536 * b2 ≤ rest.length then
      (splitPackets fuel (rest.drop (b0 + 256 * b1 + 65536 * b2))).map
        (fun ps => rest.take (b0 + 256 * b1 + 65536 * b2) :: ps)
    else none
  | _ + 1, _ => none

/-- Read one length-encoded string: a length byte up to 251, or `0xFC` and a
2-byte little-endian length; returns the string and the bytes after it. -/
def readLengEncStr : List Byte → Option (List Byte × List Byte)
  | [] => none
  | b :: rest =>
    if b = 0xFC then
      match rest with
      | lo :: hi :: rest₂ =>
        if lo + 256 * hi ≤ rest₂.length then
          some (rest₂.take (lo + 256 * hi), rest₂.drop (lo + 256 * hi))
        else none
      | _ => none
    else if b ≤ 251 then
      if b ≤ rest.length then some (rest.take b, rest.drop b) else none
    else none

/-- Read a row payload as two length-encoded strings and nothing else. -/
def decodeRow (payload : List Byte) : Option CustomResponseKeyValue :=
  match readLengEncStr payload with
  | none => none
  | some (key, rest) =>
    match readLengEncStr rest with
    | none => none
    | some (value, rest₂) => if rest₂ = [] then some ⟨key, value⟩ else none

/-- Read row payloads until a payload that begins with `0xFE`. -/
def decodeRows : List (List Byte) → Option (List CustomResponseKeyValue)
  | [] => none
  | p :: ps =>
    if p.head? = some 0xFE then some []
    else
      match decodeRow p with
      | none => none
      | some row => (decodeRows ps).map (fun rows => row :: rows)

/-- Reference decoder: split into packets, skip the column count, the two
column definitions and the legacy EOF when it is there, then read the rows. -/
def decodeResultSet (bytes : List Byte) : Option (List CustomResponseKeyValue) :=
  match splitPackets bytes.length bytes with
  | some (_ :: _ :: _ :: p :: rest) =>
    if p = legacyEOF then decodeRows rest else decodeRows (p :: rest)
  | _ => none

/-! ## Arithmetic of the narrowing conversions -/

theorem uint32_of_lt {n : Nat} (h : n < 2 ^ 32) : uint32 n = n := by
  unfold uint32
  exact Nat.mod_eq_of_lt h

theorem uint8_uint_wrap (c : Nat) : uint8 (c % uintSize) = c % 256 := by
  show c % 2 ^ 64 % 256 = c % 256
  omega

/-! ## Length-encoded strings -/

/-- C1: for a string of fewer than 65536 bytes `getLengEncStr` is the
reference encoding: the length byte and the string (1 + n bytes) when
n ≤ 251, else `0xFC`, n as two little-endian bytes and the string (3 + n
bytes). -/
theorem getLengEncStr_eq_refLengEncStr (s : List Byte) (h : s.length < 65536) :
    getLengEncStr s = refLengEncStr s ∧
    (s.length ≤ 251 →
      getLengEncStr s = s.length :: s ∧ (getLengEncStr s).length = 1 + s.length) ∧
    (251 < s.length →
      getLengEncStr s = 0xFC :: s.length % 256 :: s.length / 256 :: s ∧
      (getLengEncStr s).length = 3 + s.length) := by
  have h32 : uint32 s.length = s.length := uint32_of_lt (by omega)
  have hhi : s.length / 256 % 256 = s.length / 256 := Nat.mod_eq_of_lt (by omega)
  refine ⟨?_, ?_, ?_⟩
  · by_cases hc : s.length ≤ 251
    · have h8 : s.length % 256 = s.length := Nat.mod_eq_of_lt (by omega)
      simp [getLengEncStr, refLengEncStr, hc, Nat.not_lt.mpr hc, uint8, h8]
    · simp [getLengEncStr, refLengEncStr, hc, Nat.lt_of_not_le hc, putUint32, h32, hhi]
  · intro hc
    have h8 : s.length % 256 = s.length := Nat.mod_eq_of_lt (by omega)
    simp [getLengEncStr, Nat.not_lt.mpr hc, uint8, h8]
    omega
  · intro hc
    simp [getLengEncStr, hc, putUint32, h32, hhi]
    omega

/-- Witness of C1 on the three bytes of "Key". -/
theorem getLengEncStr_eq_refLengEncStr_witness :
    [75, 101, 121].length < 65536 ∧ getLengEncStr [75, 101, 121] = [3, 75, 101, 121] :=
  ⟨by decide,
    ((getLengEncStr_eq_refLengEncStr [75, 101, 121] (by decide)).2.1 (by decide)).1⟩

/-! ## Packet framing -/

/-- C2: for a payload of fewer than 2^24 bytes `completePacket` sets the
counter to c + 1 (the `uint` sum) and returns the payload length as three
little-endian bytes, the sequence byte (c + 1) mod 256 and the payload: 4 +
len(payload) bytes whose length field is the payload length. -/
theorem completePacket_frame (r : customResponseRowsKeyValues) (data : List Byte)
    (h : data.length < 2 ^ 24) :
    r.completePacket data =
      ({ r with counter := (r.counter + 1) % uintSize },
        [data.length % 256, data.length / 256 % 256, data.length / 65536,
          (r.counter + 1) % 256] ++ data) ∧
    (r.counter + 1 < uintSize → (r.completePacket data).1.counter = r.counter + 1) ∧
    (r.completePacket data).2.length = 4 + data.length ∧
    headerLength (r.completePacket data).2 = data.length := by
  have h32 : uint32 data.length = data.length := uint32_of_lt (by omega)
  have hhi : data.length / 65536 % 256 = data.length / 65536 :=
    Nat.mod_eq_of_lt (by omega)
  have hpkt : r.completePacket data =
      ({ r with counter := (r.counter + 1) % uintSize },
        [data.length % 256, data.length / 256 % 256, data.length / 65536,
          (r.counter + 1) % 256] ++ data) := by
    simp [customResponseRowsKeyValues.completePacket, putUint32, h32, hhi, uint8_uint_wrap]
  refine ⟨hpkt, ?_, ?_, ?_⟩
  · intro hc
    rw [hpkt]
    exact Nat.mod_eq_of_lt hc
  · rw [hpkt]
    simp
    omega
  · rw [hpkt]
    simp [headerLength]
    omega

/-- Witness of C2: a two-byte payload framed at counter 6. -/
theorem completePacket_frame_witness :
    [7, 9].length < 2 ^ 24 ∧
    (customResponseRowsKeyValues.completePacket ⟨[], 6, none⟩ [7, 9]).2 =
      [2, 0, 0, 7, 7, 9] :=
  ⟨by decide,
    (congrArg Prod.snd (completePacket_frame ⟨[], 6, none⟩ [7, 9] (by decide)).1).trans
      (by decide)⟩

/-! ## Error and OK responses -/

/-- C3: for a 16-bit code and a message of m bytes with m + 3 < 2^24 the
error packet is (m + 3) as three little-endian bytes, the sequence byte 1, the
marker `0xFF`, the code as two little-endian bytes and the message. -/
theorem customResponseError_getPacket_eq (msg : List Byte) (code : Nat)
    (hcode : code < 65536) (hlen : msg.length + 3 < 2 ^ 24) :
    customResponseError.getPacket ⟨msg, code⟩ =
      [(msg.length + 3) % 256, (msg.length + 3) / 256 % 256, (msg.length + 3) / 65536,
        1, 0xFF, code % 256, code / 256] ++ msg := by
  have h32 : uint32 (msg.length + 3) = msg.length + 3 := uint32_of_lt (by omega)
  have hhi : (msg.length + 3) / 65536 % 256 = (msg.length + 3) / 65536 :=
    Nat.mod_eq_of_lt (by omega)
  have hc16 : code % 65536 = code := Nat.mod_eq_of_lt hcode
  have hchi : code / 256 % 256 = code / 256 := Nat.mod_eq_of_lt (by omega)
  simp [customResponseError.getPacket, putUint32, putUint16, responseErr, h32, hhi, hc16,
    hchi]

/-- Witness of C3: the message "bad query" with code 1064 = 0x0428, whose
little-endian bytes are 28 04. -/
theorem customResponseError_getPacket_eq_witness :
    customResponseError.getPacket ⟨literal "bad query", 1064⟩ =
      [0x0C, 0x00, 0x00, 0x01, 0xFF, 0x28, 0x04] ++ literal "bad query" :=
  (customResponseError_getPacket_eq (literal "bad query") 1064 (by decide) (by decide)).trans
    (by decide)

/-- Counterexample to the witness stated in C3: the packet for "bad query"
with code 1064 is not 0C 00 00 01 FF 18 04 followed by the message; byte 5
is 0x28, since 1064 = 0x0428. -/
theorem customResponseError_getPacket_bad_query_ne :
    customResponseError.getPacket ⟨literal "bad query", 1064⟩ ≠
        [0x0C, 0x00, 0x00, 0x01, 0xFF, 0x18, 0x04] ++ literal "bad query" ∧
      (customResponseError.getPacket ⟨literal "bad query", 1064⟩).getD 5 0 = 0x28 := by
  decide

/-- C4: the OK packet is the nine bytes 05 00 00 01 FE 00 00 22 00 for every
capability record, set or not, and every `rowsUpdated`; no field of the
response changes it. -/
theorem customResponseOK_getPacket_const :
    (∀ (protocol : Option protocolInfo) (rowsUpdated : Nat),
      customResponseOK.getPacket ⟨protocol, rowsUpdated⟩ =
        [0x05, 0x00, 0x00, 0x01, 0xFE, 0x00, 0x00, 0x22, 0x00]) ∧
    (∀ r₁ r₂ : customResponseOK, r₁.getPacket = r₂.getPacket) ∧
    (∀ (r : customResponseOK) (pi : protocolInfo),
      (r.setProtocolInfo pi).getPacket = r.getPacket) :=
  ⟨fun _ _ => rfl, fun _ _ => rfl, fun _ _ => rfl⟩

/-! ## Key/value result set -/

theorem completePacket_protocol (r : customResponseRowsKeyValues) (d : List Byte) :
    (r.completePacket d).1.protocol = r.protocol := rfl

theorem completePacket_rows (r : customResponseRowsKeyValues) (d : List Byte) :
    (r.completePacket d).1.rows = r.rows := rfl

theorem getColumnDefPacket_eq (r : customResponseRowsKeyValues)
    (schema table column : List Byte) :
    r.getColumnDefPacket schema table column =
      r.completePacket (columnDefPayload schema table column) := by
  simp [customResponseRowsKeyValues.getColumnDefPacket, columnDefPayload]

theorem getRowData_eq (r : customResponseRowsKeyValues) (row : CustomResponseKeyValue) :
    r.getRowData row.Key row.Value = r.completePacket (rowPayload row) := rfl

theorem framePackets_append (r : customResponseRowsKeyValues) (xs ys : List (List Byte)) :
    framePackets r (xs ++ ys) =
      ((framePackets (framePackets r xs).1 ys).1,
        (framePackets r xs).2 ++ (framePackets (framePackets r xs).1 ys).2) := by
  induction xs generalizing r with
  | nil => simp [framePackets]
  | cons d ds ih => simp [framePackets, ih]

theorem framePackets_length (r : customResponseRowsKeyValues) (ps : List (List Byte)) :
    (framePackets r ps).2.length = ps.length := by
  induction ps generalizing r with
  | nil => simp [framePackets]
  | cons d ds ih => simp [framePackets, ih]

theorem framePackets_protocol (r : customResponseRowsKeyValues) (ps : List (List Byte)) :
    (framePackets r ps).1.protocol = r.protocol := by
  induction ps generalizing r with
  | nil => simp [framePackets]
  | cons d ds ih => simp [framePackets, ih, completePacket_protocol]

theorem writeRows_eq (r : customResponseRowsKeyValues) (b : List Byte)
    (rows : List CustomResponseKeyValue) :
    r.writeRows b rows =
      ((framePackets r (rows.map rowPayload)).1,
        b ++ (framePackets r (rows.map rowPayload)).2.flatten) := by
  induction rows generalizing r b with
  | nil => simp [customResponseRowsKeyValues.writeRows, framePackets]
  | cons row rest ih =>
    simp [customResponseRowsKeyValues.writeRows, framePackets, ih, getRowData_eq]

/-- The buffer returned by `getPacket` is the concatenation of the packets
framed from counter 0 over `resultSetPayloads`. -/
theorem getPacket_eq_of_dep (mask : Nat) (r : customResponseRowsKeyValues)
    (p : protocolInfo) (dep : Bool) (hp : r.protocol = some p)
    (hd : p.deprecateEOFSet mask = some dep) :
    r.getPacket mask =
      some ((framePackets { r with counter := 0 } (resultSetPayloads dep r.rows)).1,
        (framePackets { r with counter := 0 } (resultSetPayloads dep r.rows)).2.flatten) := by
  obtain ⟨rows, counter, protocol⟩ := r
  simp only at hp
  subst hp
  cases dep <;>
    simp [customResponseRowsKeyValues.getPacket, getColumnDefPacket_eq, hd, writeRows_eq,
      resultSetPayloads, framePackets, framePackets_append, framePackets_protocol,
      completePacket_protocol, completePacket_rows, legacyEOF, shortOK]

theorem completePacket_drop_header (r : customResponseRowsKeyValues) (d : List Byte) :
    (r.completePacket d).2.drop 4 = d := by
  simp [customResponseRowsKeyValues.completePacket]

theorem completePacket_sequenceId (r : customResponseRowsKeyValues) (d : List Byte) :
    sequenceId (r.completePacket d).2 = (r.counter + 1) % 256 := by
  simp [customResponseRowsKeyValues.completePacket, sequenceId, uint8_uint_wrap]

theorem completePacket_counter (r : customResponseRowsKeyValues) (d : List Byte) :
    (r.completePacket d).1.counter = (r.counter + 1) % uintSize := rfl

theorem framePackets_getLast (r : customResponseRowsKeyValues) (xs : List (List Byte))
    (d : List Byte) :
    (framePackets r (xs ++ [d])).2.getLast? =
      some ((framePackets r xs).1.completePacket d).2 := by
  simp [framePackets_append, framePackets]

theorem map_mod_range_congr (n a b : Nat) (h : a % 256 = b % 256) :
    (List.range' a n).map (· % 256) = (List.range' b n).map (· % 256) := by
  induction n generalizing a b with
  | zero => simp
  | succ n ih =>
    simp only [List.range'_succ, List.map_cons, h]
    rw [ih (a + 1) (b + 1) (by omega)]

/-- Sequence ids of packets framed one after the other: the counter values
that follow the initial one, each reduced to one byte. -/
theorem framePackets_sequenceIds (r : customResponseRowsKeyValues) (ps : List (List Byte)) :
    (framePackets r ps).2.map sequenceId =
      (List.range' (r.counter + 1) ps.length).map (· % 256) := by
  induction ps generalizing r with
  | nil => simp [framePackets]
  | cons d ds ih =>
    simp only [framePackets, List.map_cons, List.length_cons, List.range'_succ, ih,
      completePacket_sequenceId, completePacket_counter]
    rw [map_mod_range_congr ds.length ((r.counter + 1) % uintSize + 1) (r.counter + 1 + 1)
      (by unfold uintSize; omega)]

/-- First byte of a length-encoded string: always present, never above `0xFC`. -/
theorem getLengEncStr_head (s : List Byte) :
    ∃ b t, getLengEncStr s = b :: t ∧ b ≤ 0xFC := by
  by_cases hc : s.length > 251
  · exact ⟨0xFC, (putUint32 (uint32 s.length)).getD 0 0 ::
      (putUint32 (uint32 s.length)).getD 1 0 :: s, by simp [getLengEncStr, hc], by decide⟩
  · refine ⟨s.length % 256, s, by simp [getLengEncStr, hc, uint8], ?_⟩
    show s.length % 256 ≤ 252
    omega

theorem rowPayload_ne_legacyEOF (row : CustomResponseKeyValue) :
    rowPayload row ≠ [0xFE, 0x00, 0x00, 0x22, 0x00, 0x00, 0x00] := by
  obtain ⟨b, t, hbt, hb⟩ := getLengEncStr_head row.Key
  intro h
  simp only [rowPayload, hbt, List.cons_append, List.cons.injEq] at h
  have h1 : b = 254 := h.1
  subst h1
  exact absurd hb (by decide)

theorem columnDefPayload_ne_legacyEOF (schema table column : List Byte) :
    columnDefPayload schema table column ≠ [0xFE, 0x00, 0x00, 0x22, 0x00, 0x00, 0x00] := by
  intro h
  have h0 := congrArg (fun l => l.getD 0 0) h
  simp [columnDefPayload, getLengEncStr, literal, uint8] at h0

/-- C5, amended: when `deprecateEOFSet` is false, `getPacket` returns the
concatenation of 5 + n packets framed by `completePacket` from counter 0:
the column count [0x02], the column definitions of "Key" and "Value", a
legacy EOF, one packet per row in list order (key then value, each
length-encoded), and a final legacy EOF. -/
theorem getPacket_legacy_eof (mask : Nat) (r : customResponseRowsKeyValues)
    (p : protocolInfo) (hp : r.protocol = some p)
    (hd : p.deprecateEOFSet mask = some false) :
    r.getPacket mask =
      some ((framePackets { r with counter := 0 }
          ([[0x02],
            columnDefPayload (literal "BC") (literal "CustomResponse") (literal "Key"),
            columnDefPayload (literal "BC") (literal "CustomResponse") (literal "Value"),
            [0xFE, 0x00, 0x00, 0x22, 0x00, 0x00, 0x00]] ++
            r.rows.map (fun row => getLengEncStr row.Key ++ getLengEncStr row.Value) ++
            [[0xFE, 0x00, 0x00, 0x22, 0x00, 0x00, 0x00]])).1,
        (framePackets { r with counter := 0 }
          ([[0x02],
            columnDefPayload (literal "BC") (literal "CustomResponse") (literal "Key"),
            columnDefPayload (literal "BC") (literal "CustomResponse") (literal "Value"),
            [0xFE, 0x00, 0x00, 0x22, 0x00, 0x00, 0x00]] ++
            r.rows.map (fun row => getLengEncStr row.Key ++ getLengEncStr row.Value) ++
            [[0xFE, 0x00, 0x00, 0x22, 0x00, 0x00, 0x00]])).2.flatten) ∧
    (framePackets { r with counter := 0 }
          ([[0x02],
            columnDefPayload (literal "BC") (literal "CustomResponse") (literal "Key"),
            columnDefPayload (literal "BC") (literal "CustomResponse") (literal "Value"),
            [0xFE, 0x00, 0x00, 0x22, 0x00, 0x00, 0x00]] ++
            r.rows.map (fun row => getLengEncStr row.Key ++ getLengEncStr row.Value) ++
            [[0xFE, 0x00, 0x00, 0x22, 0x00, 0x00, 0x00]])).2.length = 5 + r.rows.length ∧
    (∀ (r' : customResponseRowsKeyValues) (schema table column : List Byte),
      r'.getColumnDefPacket schema table column =
        r'.completePacket (columnDefPayload schema table column)) := by
  refine ⟨?_, ?_, getColumnDefPacket_eq⟩
  · rw [getPacket_eq_of_dep mask r p false hp hd]
    rfl
  · rw [framePackets_length]
    simp
    omega

set_option maxRecDepth 20000 in
/-- Witness of C5: one row ("k", "v"), neither side advertising the
capability; six packets, 163 bytes, ending in EOF, row, EOF. -/
theorem getPacket_legacy_eof_witness :
    protocolInfo.deprecateEOFSet 0x01000000 ⟨10, some ⟨0⟩, some ⟨0⟩⟩ = some false ∧
    (customResponseRowsKeyValues.getPacket 0x01000000
      ⟨[⟨literal "k", literal "v"⟩], 7, some ⟨10, some ⟨0⟩, some ⟨0⟩⟩⟩).map
        (fun out => (out.1.counter, out.2.length, out.2.drop 133)) =
      some (6, 163, [7, 0, 0, 4, 0xFE, 0, 0, 0x22, 0, 0, 0,
        4, 0, 0, 5, 1, 107, 1, 118, 7, 0, 0, 6, 0xFE, 0, 0, 0x22, 0, 0, 0]) :=
  ⟨by decide,
    (congrArg (Option.map fun out => (out.1.counter, out.2.length, out.2.drop 133))
      (getPacket_legacy_eof 0x01000000
        ⟨[⟨literal "k", literal "v"⟩], 7, some ⟨10, some ⟨0⟩, some ⟨0⟩⟩⟩
        ⟨10, some ⟨0⟩, some ⟨0⟩⟩ rfl (by decide)).1).trans (by decide)⟩

/-- C6, amended: when `deprecateEOFSet` is true, `getPacket` returns the
concatenation of 4 + n packets framed by `completePacket` from counter 0:
the column count [0x02], the column definitions of "Key" and "Value", one
packet per row in list order, and a final short acknowledgement FE 00 00 22
00.  No payload is the legacy EOF, and whatever the rows and the counter of
a response with the same capability record, its last packet carries the
short acknowledgement. -/
theorem getPacket_deprecate_eof (mask : Nat) (r : customResponseRowsKeyValues)
    (p : protocolInfo) (hp : r.protocol = some p)
    (hd : p.deprecateEOFSet mask = some true) :
    r.getPacket mask =
      some ((framePackets { r with counter := 0 }
          ([[0x02],
            columnDefPayload (literal "BC") (literal "CustomResponse") (literal "Key"),
            columnDefPayload (literal "BC") (literal "CustomResponse") (literal "Value")] ++
            r.rows.map (fun row => getLengEncStr row.Key ++ getLengEncStr row.Value) ++
            [[0xFE, 0x00, 0x00, 0x22, 0x00]])).1,
        (framePackets { r with counter := 0 }
          ([[0x02],
            columnDefPayload (literal "BC") (literal "CustomResponse") (literal "Key"),
            columnDefPayload (literal "BC") (literal "CustomResponse") (literal "Value")] ++
            r.rows.map (fun row => getLengEncStr row.Key ++ getLengEncStr row.Value) ++
            [[0xFE, 0x00, 0x00, 0x22, 0x00]])).2.flatten) ∧
    (framePackets { r with counter := 0 }
          ([[0x02],
            columnDefPayload (literal "BC") (literal "CustomResponse") (literal "Key"),
            columnDefPayload (literal "BC") (literal "CustomResponse") (literal "Value")] ++
            r.rows.map (fun row => getLengEncStr row.Key ++ getLengEncStr row.Value) ++
            [[0xFE, 0x00, 0x00, 0x22, 0x00]])).2.length = 4 + r.rows.length ∧
    [0xFE, 0x00, 0x00, 0x22, 0x00, 0x00, 0x00] ∉
      ([[0x02],
        columnDefPayload (literal "BC") (literal "CustomResponse") (literal "Key"),
        columnDefPayload (literal "BC") (literal "CustomResponse") (literal "Value")] ++
        r.rows.map (fun row => getLengEncStr row.Key ++ getLengEncStr row.Value) ++
        [[0xFE, 0x00, 0x00, 0x22, 0x00]]) ∧
    (∀ r₂ : customResponseRowsKeyValues, r₂.protocol = some p →
      ∃ pk, emittedPackets mask r₂ = some pk ∧
        (r₂.getPacket mask).map Prod.snd = some pk.flatten ∧
        pk.getLast?.map (List.drop 4) = some [0xFE, 0x00, 0x00, 0x22, 0x00]) := by
  refine ⟨?_, ?_, ?_, ?_⟩
  · rw [getPacket_eq_of_dep mask r p true hp hd]
    rfl
  · rw [framePackets_length]
    simp
    omega
  · intro hmem
    simp only [List.mem_append, List.mem_cons, List.mem_map, List.mem_singleton,
      List.not_mem_nil, or_false] at hmem
    rcases hmem with ((h | h | h) | ⟨row, -, h⟩) | h
    · exact absurd h (by decide)
    · exact columnDefPayload_ne_legacyEOF _ _ _ h.symm
    · exact columnDefPayload_ne_legacyEOF _ _ _ h.symm
    · exact rowPayload_ne_legacyEOF row h
    · exact absurd h (by decide)
  · intro r₂ hp₂
    refine ⟨(framePackets { r₂ with counter := 0 } (resultSetPayloads true r₂.rows)).2,
      by simp only [emittedPackets, hp₂, hd], ?_, ?_⟩
    · rw [getPacket_eq_of_dep mask r₂ p true hp₂ hd]
      rfl
    · have hsplit : resultSetPayloads true r₂.rows =
          ([[0x02],
            columnDefPayload (literal "BC") (literal "CustomResponse") (literal "Key"),
            columnDefPayload (literal "BC") (literal "CustomResponse") (literal "Value")] ++
            r₂.rows.map rowPayload) ++ [shortOK] := by
        simp [resultSetPayloads]
      rw [hsplit, framePackets_getLast]
      simp [completePacket_drop_header, shortOK]

set_option maxRecDepth 20000 in
/-- Witness of C6: one row ("k", "v"), both sides advertising the
capability; five packets, 150 bytes, ending in the row and the short
acknowledgement. -/
theorem getPacket_deprecate_eof_witness :
    protocolInfo.deprecateEOFSet 0x01000000
      ⟨10, some ⟨0x01000000⟩, some ⟨0x01000000⟩⟩ = some true ∧
    (customResponseRowsKeyValues.getPacket 0x01000000
      ⟨[⟨literal "k", literal "v"⟩], 7,
        some ⟨10, some ⟨0x01000000⟩, some ⟨0x01000000⟩⟩⟩).map
        (fun out => (out.1.counter, out.2.length, out.2.drop 133)) =
      some (5, 150, [4, 0, 0, 4, 1, 107, 1, 118, 5, 0, 0, 5, 0xFE, 0, 0, 0x22, 0]) :=
  ⟨by decide,
    (congrArg (Option.map fun out => (out.1.counter, out.2.length, out.2.drop 133))
      (getPacket_deprecate_eof 0x01000000
        ⟨[⟨literal "k", literal "v"⟩], 7,
          some ⟨10, some ⟨0x01000000⟩, some ⟨0x01000000⟩⟩⟩
        ⟨10, some ⟨0x01000000⟩, some ⟨0x01000000⟩⟩ rfl (by decide)).1).trans (by decide)⟩

set_option maxRecDepth 20000 in
/-- Counterexample to C5 as stated: with one row and the capability not
negotiated, `getPacket` frames six packets (final counter 6), not 4 + 1. -/
theorem getPacket_legacy_eof_count_counterexample :
    protocolInfo.deprecateEOFSet 0x01000000 ⟨10, some ⟨0⟩, some ⟨0⟩⟩ = some false ∧
    (emittedPackets 0x01000000
      ⟨[⟨literal "a", literal "b"⟩], 0, some ⟨10, some ⟨0⟩, some ⟨0⟩⟩⟩).map List.length =
      some 6 ∧
    (customResponseRowsKeyValues.getPacket 0x01000000
      ⟨[⟨literal "a", literal "b"⟩], 0, some ⟨10, some ⟨0⟩, some ⟨0⟩⟩⟩).map
        (fun out => (out.1.counter, out.2)) =
      (emittedPackets 0x01000000
        ⟨[⟨literal "a", literal "b"⟩], 0, some ⟨10, some ⟨0⟩, some ⟨0⟩⟩⟩).map
        (fun pk => (6, pk.flatten)) ∧
    6 ≠ 4 + [(⟨literal "a", literal "b"⟩ : CustomResponseKeyValue)].length := by
  decide

set_option maxRecDepth 20000 in
/-- Counterexample to C6 as stated: with one row and the capability
negotiated on both sides, `getPacket` frames five packets (final counter 5),
not 3 + 1. -/
theorem getPacket_deprecate_eof_count_counterexample :
    protocolInfo.deprecateEOFSet 0x01000000
      ⟨10, some ⟨0x01000000⟩, some ⟨0x01000000⟩⟩ = some true ∧
    (emittedPackets 0x01000000
      ⟨[⟨literal "a", literal "b"⟩], 0,
        some ⟨10, some ⟨0x01000000⟩, some ⟨0x01000000⟩⟩⟩).map List.length = some 5 ∧
    (customResponseRowsKeyValues.getPacket 0x01000000
      ⟨[⟨literal "a", literal "b"⟩], 0,
        some ⟨10, some ⟨0x01000000⟩, some ⟨0x01000000⟩⟩⟩).map
        (fun out => (out.1.counter, out.2)) =
      (emittedPackets 0x01000000
        ⟨[⟨literal "a", literal "b"⟩], 0,
          some ⟨10, some ⟨0x01000000⟩, some ⟨0x01000000⟩⟩⟩).map
        (fun pk => (5, pk.flatten)) ∧
    5 ≠ 3 + [(⟨literal "a", literal "b"⟩ : CustomResponseKeyValue)].length := by
  decide

/-! ## Sequence ids of a result set -/

theorem resultSetPayloads_length (dep : Bool) (rows : List CustomResponseKeyValue) :
    (resultSetPayloads dep rows).length = (if dep then 4 else 5) + rows.length := by
  cases dep <;> simp [resultSetPayloads] <;> omega

theorem emittedPackets_eq (mask : Nat) (r : customResponseRowsKeyValues)
    (p : protocolInfo) (dep : Bool) (hp : r.protocol = some p)
    (hd : p.deprecateEOFSet mask = some dep) :
    emittedPackets mask r =
      some (framePackets { r with counter := 0 } (resultSetPayloads dep r.rows)).2 := by
  simp only [emittedPackets, hp, hd]

theorem emittedPackets_some (mask : Nat) (r : customResponseRowsKeyValues)
    (pk : List (List Byte)) (h : emittedPackets mask r = some pk) :
    ∃ p dep, r.protocol = some p ∧ p.deprecateEOFSet mask = some dep ∧
      pk = (framePackets { r with counter := 0 } (resultSetPayloads dep r.rows)).2 := by
  unfold emittedPackets at h
  cases hp : r.protocol with
  | none => simp [hp] at h
  | some p =>
    cases hd : p.deprecateEOFSet mask with
    | none => simp [hp, hd] at h
    | some dep =>
      simp only [hp, hd, Option.some.injEq] at h
      exact ⟨p, dep, rfl, hd, h.symm⟩

theorem map_mod_range_of_le (n : Nat) (h : n ≤ 255) :
    (List.range' 1 n).map (· % 256) = List.range' 1 n := by
  conv_rhs => rw [← List.map_id (List.range' 1 n)]
  apply List.map_congr_left
  intro x hx
  have hx' := List.mem_range'_1.mp hx
  simp only [id]
  omega

/-- C7, amended: the packets that `getPacket` emits carry the sequence ids
1 mod 256, 2 mod 256, ..., N mod 256 in emission order; they are exactly
1, 2, ..., N whenever N ≤ 255. -/
theorem getPacket_sequenceIds (mask : Nat) (r : customResponseRowsKeyValues)
    (pk : List (List Byte)) (h : emittedPackets mask r = some pk) :
    (r.getPacket mask).map Prod.snd = some pk.flatten ∧
    pk.map sequenceId = (List.range' 1 pk.length).map (· % 256) ∧
    (pk.length ≤ 255 → pk.map sequenceId = List.range' 1 pk.length) := by
  obtain ⟨p, dep, hp, hd, rfl⟩ := emittedPackets_some mask r pk h
  have hids := framePackets_sequenceIds { r with counter := 0 } (resultSetPayloads dep r.rows)
  rw [← framePackets_length { r with counter := 0 }] at hids
  refine ⟨?_, hids, ?_⟩
  · rw [getPacket_eq_of_dep mask r p dep hp hd]
    rfl
  · intro hN
    rw [hids]
    exact map_mod_range_of_le _ hN

set_option maxRecDepth 20000 in
/-- Witness of C7: a response with two rows emits seven packets with the
sequence ids 1 to 7. -/
theorem getPacket_sequenceIds_witness :
    emittedPackets 0x01000000
        ⟨[⟨literal "a", literal "b"⟩, ⟨literal "c", literal "d"⟩], 3,
          some ⟨10, some ⟨0⟩, some ⟨0⟩⟩⟩ =
      some (framePackets ⟨[⟨literal "a", literal "b"⟩, ⟨literal "c", literal "d"⟩], 0,
          some ⟨10, some ⟨0⟩, some ⟨0⟩⟩⟩
        (resultSetPayloads false [⟨literal "a", literal "b"⟩, ⟨literal "c", literal "d"⟩])).2 ∧
    (framePackets ⟨[⟨literal "a", literal "b"⟩, ⟨literal "c", literal "d"⟩], 0,
          some ⟨10, some ⟨0⟩, some ⟨0⟩⟩⟩
        (resultSetPayloads false
          [⟨literal "a", literal "b"⟩, ⟨literal "c", literal "d"⟩])).2.map sequenceId =
      [1, 2, 3, 4, 5, 6, 7] :=
  ⟨by decide,
    ((getPacket_sequenceIds 0x01000000
      ⟨[⟨literal "a", literal "b"⟩, ⟨literal "c", literal "d"⟩], 3,
        some ⟨10, some ⟨0⟩, some ⟨0⟩⟩⟩ _ (by decide)).2.2 (by decide)).trans (by decide)⟩

/-- Counterexample to C7 as stated: a response with 251 rows and the
capability not negotiated emits 256 packets, and their sequence ids are not
1, 2, ..., 256: the last one is 0. -/
theorem getPacket_sequenceIds_wrap_counterexample :
    (emittedPackets 0x01000000
      ⟨List.replicate 251 ⟨[], []⟩, 0, some ⟨10, some ⟨0⟩, some ⟨0⟩⟩⟩).map List.length =
      some 256 ∧
    (emittedPackets 0x01000000
      ⟨List.replicate 251 ⟨[], []⟩, 0, some ⟨10, some ⟨0⟩, some ⟨0⟩⟩⟩).map
        (fun pk => pk.getLast?.map sequenceId) = some (some 0) ∧
    (emittedPackets 0x01000000
      ⟨List.replicate 251 ⟨[], []⟩, 0, some ⟨10, some ⟨0⟩, some ⟨0⟩⟩⟩).map
        (List.map sequenceId) ≠ some (List.range' 1 256) := by
  have hd : protocolInfo.deprecateEOFSet 0x01000000 ⟨10, some ⟨0⟩, some ⟨0⟩⟩ = some false := by
    decide
  have he := emittedPackets_eq 0x01000000
    ⟨List.replicate 251 ⟨[], []⟩, 0, some ⟨10, some ⟨0⟩, some ⟨0⟩⟩⟩ _ false rfl hd
  have hlen : (resultSetPayloads false (List.replicate 251 ⟨[], []⟩)).length = 256 := by
    rw [resultSetPayloads_length, List.length_replicate]
    rfl
  have hids := framePackets_sequenceIds
    ⟨List.replicate 251 ⟨[], []⟩, 0, some ⟨10, some ⟨0⟩, some ⟨0⟩⟩⟩
    (resultSetPayloads false (List.replicate 251 ⟨[], []⟩))
  rw [hlen] at hids
  rw [he]
  refine ⟨?_, ?_, ?_⟩
  · simp only [Option.map_some', framePackets_length, hlen]
  · simp only [Option.map_some', Option.some.injEq]
    rw [← List.getLast?_map, hids, List.getLast?_map]
    simp [List.getLast?_range']
  · simp only [Option.map_some', ne_eq, Option.some.injEq, hids]
    intro hEq
    have h0 : (0 : Nat) ∈ (List.range' 1 256).map (· % 256) :=
      List.mem_map.mpr ⟨256, by simp [List.mem_range'_1], rfl⟩
    rw [hEq] at h0
    simp [List.mem_range'_1] at h0

/-! ## Query replacement -/

/-- Result of the rewrite on a request of at least five bytes: the two low
bytes of the new length, bytes 2 to 4 of the request, then the query. -/
theorem replaceQuery_getPacket_cons (protocol : Option protocolInfo) (q : List Byte)
    (b0 b1 b2 b3 b4 : Byte) (rest spare : List Byte) :
    customResponseReplaceQuery.getPacket
        ⟨protocol, q, ⟨b0 :: b1 :: b2 :: b3 :: b4 :: rest, spare⟩⟩ =
      some ([(q.length + 1) % 256, (q.length + 1) / 256 % 256, b2, b3, b4] ++ q) := by
  have hcap : 5 ≤ ByteSlice.cap ⟨b0 :: b1 :: b2 :: b3 :: b4 :: rest, spare⟩ := by
    simp only [ByteSlice.cap, List.length_cons]
    omega
  have hmod : (q.length + 1) % 4294967296 % 256 = (q.length + 1) % 256 := by omega
  have hmod2 : (q.length + 1) % 4294967296 / 256 % 256 = (q.length + 1) / 256 % 256 := by
    omega
  simp [customResponseReplaceQuery.getPacket, ByteSlice.sliceTo, hcap, putUint32, uint32,
    hmod, hmod2]

theorem exists_cons5 (l : List Byte) (h : 5 ≤ l.length) :
    ∃ b0 b1 b2 b3 b4 rest, l = b0 :: b1 :: b2 :: b3 :: b4 :: rest := by
  match l, h with
  | b0 :: b1 :: b2 :: b3 :: b4 :: rest, _ => exact ⟨b0, b1, b2, b3, b4, rest, rfl⟩

/-- C8: for an original request `o` of at least 5 bytes (whatever its spare
capacity) and a query `q`, the rewrite returns 5 + len(q) bytes: the two low
little-endian bytes of L = len(q) + 1, then o[2], o[3], o[4] unchanged, then
exactly `q`; the result is the same for any two requests that agree on their
first five bytes, so no later byte of `o` reaches it. -/
theorem replaceQuery_getPacket_eq (protocol : Option protocolInfo) (q : List Byte)
    (o : ByteSlice) (h : 5 ≤ o.elems.length) :
    customResponseReplaceQuery.getPacket ⟨protocol, q, o⟩ =
      some ([(q.length + 1) % 256, (q.length + 1) / 256 % 256,
        o.elems.getD 2 0, o.elems.getD 3 0, o.elems.getD 4 0] ++ q) ∧
    (customResponseReplaceQuery.getPacket ⟨protocol, q, o⟩).map List.length =
      some (5 + q.length) ∧
    (customResponseReplaceQuery.getPacket ⟨protocol, q, o⟩).map (List.drop 5) = some q ∧
    (∀ o₂ : ByteSlice, 5 ≤ o₂.elems.length → o₂.elems.take 5 = o.elems.take 5 →
      customResponseReplaceQuery.getPacket ⟨protocol, q, o₂⟩ =
        customResponseReplaceQuery.getPacket ⟨protocol, q, o⟩) := by
  obtain ⟨elems, spare⟩ := o
  obtain ⟨b0, b1, b2, b3, b4, rest, rfl⟩ := exists_cons5 elems h
  refine ⟨?_, ?_, ?_, ?_⟩
  · rw [replaceQuery_getPacket_cons]
    simp
  · rw [replaceQuery_getPacket_cons]
    simp
    omega
  · rw [replaceQuery_getPacket_cons]
    simp
  · intro o₂ h₂ htake
    obtain ⟨elems₂, spare₂⟩ := o₂
    obtain ⟨c0, c1, c2, c3, c4, rest₂, rfl⟩ := exists_cons5 elems₂ h₂
    simp only [List.take_succ_cons, List.take_zero, List.cons.injEq, and_true] at htake
    obtain ⟨-, -, h2, h3, h4⟩ := htake
    rw [replaceQuery_getPacket_cons, replaceQuery_getPacket_cons, h2, h3, h4]

/-- Witness of C8: the request 0B 00 00 00 03 "SELECT" rewritten with
"SELECT 1" is 09 00 00 00 03 "SELECT 1". -/
theorem replaceQuery_getPacket_eq_witness :
    5 ≤ ([0x0B, 0, 0, 0, 3] ++ literal "SELECT").length ∧
    customResponseReplaceQuery.getPacket
        ⟨none, literal "SELECT 1", ⟨[0x0B, 0, 0, 0, 3] ++ literal "SELECT", []⟩⟩ =
      some ([0x09, 0x00, 0x00, 0x00, 0x03] ++ literal "SELECT 1") :=
  ⟨by decide,
    (replaceQuery_getPacket_eq none (literal "SELECT 1")
      ⟨[0x0B, 0, 0, 0, 3] ++ literal "SELECT", []⟩ (by decide)).1.trans (by decide)⟩

/-- C9, evaluated at the failing input: a well-formed request whose payload
is 65537 bytes long (header 01 00 01) rewritten with "SELECT 1" keeps byte 2
of the old header, so the 3-byte length field of the result reads 65545
while the payload of the result is 9 bytes long. -/
theorem replaceQuery_header_stale_high_byte :
    customResponseReplaceQuery.getPacket
        ⟨none, literal "SELECT 1", ⟨1 :: 0 :: 1 :: 0 :: 3 :: List.replicate 65536 0x20, []⟩⟩ =
      some ([0x09, 0x00, 0x01, 0x00, 0x03] ++ literal "SELECT 1") ∧
    (customResponseReplaceQuery.getPacket
        ⟨none, literal "SELECT 1",
          ⟨1 :: 0 :: 1 :: 0 :: 3 :: List.replicate 65536 0x20, []⟩⟩).map
        (fun pkt => (headerLength pkt, pkt.length - 4)) = some (65545, 9) := by
  rw [replaceQuery_getPacket_cons]
  decide

/-- C10, amended: the rewrite fails exactly when the capacity of the
original request is below 5.  It fails for every request whose capacity is
below 5, the empty one without capacity included, and succeeds for every
request of capacity 5 or more, hence for every request of 5 or more bytes. -/
theorem replaceQuery_getPacket_fails_iff :
    (∀ r : customResponseReplaceQuery, r.getPacket = none ↔ r.originalRequest.cap < 5) ∧
    (∀ r : customResponseReplaceQuery, 5 ≤ r.originalRequest.len → r.getPacket.isSome) ∧
    (∀ r : customResponseReplaceQuery, (r.setOriginalRequest ⟨[], []⟩).getPacket = none) := by
  have hiff : ∀ r : customResponseReplaceQuery,
      r.getPacket = none ↔ r.originalRequest.cap < 5 := by
    intro r
    by_cases hc : 5 ≤ r.originalRequest.cap
    · simp [customResponseReplaceQuery.getPacket, ByteSlice.sliceTo, hc, Nat.not_lt.mpr hc]
    · simp [customResponseReplaceQuery.getPacket, ByteSlice.sliceTo, hc, Nat.lt_of_not_le hc]
  refine ⟨hiff, ?_, ?_⟩
  · intro r hlen
    have hcap : ¬ r.originalRequest.cap < 5 := by
      simp only [ByteSlice.cap, ByteSlice.len] at *
      omega
    cases hr : r.getPacket with
    | none => exact absurd ((hiff r).mp hr) hcap
    | some pkt => rfl
  · intro r
    exact (hiff _).mpr
      (by simp [customResponseReplaceQuery.setOriginalRequest, ByteSlice.cap])

/-- Witness of C10: a request of five bytes is rewritten, the empty request
without capacity is not. -/
theorem replaceQuery_getPacket_fails_iff_witness :
    (customResponseReplaceQuery.getPacket
      ⟨none, literal "SELECT 1", ⟨[0x0B, 0, 0, 0, 3], []⟩⟩).isSome ∧
    customResponseReplaceQuery.getPacket
      (customResponseReplaceQuery.setOriginalRequest
        ⟨none, literal "SELECT 1", ⟨[0x0B, 0, 0, 0, 3], []⟩⟩ ⟨[], []⟩) = none :=
  ⟨replaceQuery_getPacket_fails_iff.2.1 ⟨none, literal "SELECT 1", ⟨[0x0B, 0, 0, 0, 3], []⟩⟩
      (by decide),
    replaceQuery_getPacket_fails_iff.2.2 ⟨none, literal "SELECT 1", ⟨[0x0B, 0, 0, 0, 3], []⟩⟩⟩

/-- Counterexample to C10 as stated: a request of 4 bytes that sits in a
buffer of capacity 7 is shorter than 5 bytes, yet the rewrite succeeds; byte
4 of the result is the byte of the buffer that follows the request. -/
theorem replaceQuery_short_request_succeeds :
    ByteSlice.len ⟨[0x0B, 0, 0, 0], [9, 9, 9]⟩ < 5 ∧
    customResponseReplaceQuery.getPacket
        ⟨none, literal "SELECT 1", ⟨[0x0B, 0, 0, 0], [9, 9, 9]⟩⟩ =
      some ([0x09, 0x00, 0x00, 0x00, 0x09] ++ literal "SELECT 1") := by
  decide

/-! ## Capability predicates -/

/-- C11: with client flags C and server flags S, `deprecateEOFSet` is true
exactly when the mask meets both S and C; it is false when the mask meets
only one side or neither, and it depends neither on `protocolVersion` nor on
the bits of C and S outside the mask. -/
theorem deprecateEOFSet_iff_both :
    (∀ (mask v C S : Nat),
      protocolInfo.deprecateEOFSet mask ⟨v, some ⟨C⟩, some ⟨S⟩⟩ =
        some (decide (mask &&& S ≠ 0 ∧ mask &&& C ≠ 0))) ∧
    (∀ (mask v C S : Nat),
      protocolInfo.deprecateEOFSet mask ⟨v, some ⟨C⟩, some ⟨S⟩⟩ = some true ↔
        (mask &&& S ≠ 0 ∧ mask &&& C ≠ 0)) ∧
    (∀ (mask v C S : Nat), (mask &&& S = 0 ∨ mask &&& C = 0) →
      protocolInfo.deprecateEOFSet mask ⟨v, some ⟨C⟩, some ⟨S⟩⟩ = some false) ∧
    (∀ (mask v v₂ C C₂ S S₂ : Nat), mask &&& C = mask &&& C₂ → mask &&& S = mask &&& S₂ →
      protocolInfo.deprecateEOFSet mask ⟨v, some ⟨C⟩, some ⟨S⟩⟩ =
        protocolInfo.deprecateEOFSet mask ⟨v₂, some ⟨C₂⟩, some ⟨S₂⟩⟩) := by
  have hval : ∀ (mask v C S : Nat),
      protocolInfo.deprecateEOFSet mask ⟨v, some ⟨C⟩, some ⟨S⟩⟩ =
        some (decide (mask &&& S ≠ 0 ∧ mask &&& C ≠ 0)) := by
    intro mask v C S
    by_cases hS : mask &&& S = 0 <;> by_cases hC : mask &&& C = 0 <;>
      simp [protocolInfo.deprecateEOFSet, hS, hC]
  refine ⟨hval, ?_, ?_, ?_⟩
  · intro mask v C S
    rw [hval]
    simp
  · intro mask v C S h
    rw [hval]
    rcases h with h | h <;> simp [h]
  · intro mask v v₂ C C₂ S S₂ hC hS
    rw [hval, hval, hC, hS]

/-- Witness of C11 with the mask `0x01000000`: set on both sides gives true,
set on the server side only gives false, whatever the other bits. -/
theorem deprecateEOFSet_iff_both_witness :
    protocolInfo.deprecateEOFSet 0x01000000 ⟨10, some ⟨0x01000200⟩, some ⟨0x01000008⟩⟩ =
      some true ∧
    protocolInfo.deprecateEOFSet 0x01000000 ⟨10, some ⟨0x00000200⟩, some ⟨0x01000008⟩⟩ =
      some false :=
  ⟨(deprecateEOFSet_iff_both.2.1 0x01000000 10 0x01000200 0x01000008).mpr (by decide),
    deprecateEOFSet_iff_both.2.2.1 0x01000000 10 0x00000200 0x01000008 (Or.inr (by decide))⟩

/-- C16: `clientTransactionsSet` returns what `deprecateEOFSet` returns for
every capability record, since both test the mask `clientDeprecateEOF`
against the server flags and the client flags. -/
theorem clientTransactionsSet_eq_deprecateEOFSet (mask : Nat) (p : protocolInfo) :
    p.clientTransactionsSet mask = p.deprecateEOFSet mask := by
  unfold protocolInfo.clientTransactionsSet protocolInfo.deprecateEOFSet
  rfl

/-! ## Sizes of payloads and exact headers -/

theorem getLengEncStr_length_le (s : List Byte) :
    (getLengEncStr s).length ≤ 3 + s.length := by
  by_cases hc : s.length > 251
  · simp [getLengEncStr, hc]
    omega
  · simp [getLengEncStr, hc]
    omega

theorem completePacket_headerLength (r : customResponseRowsKeyValues) (d : List Byte)
    (h : d.length < 2 ^ 24) : headerLength (r.completePacket d).2 = d.length := by
  have h32 : uint32 d.length = d.length := uint32_of_lt (by omega)
  simp [customResponseRowsKeyValues.completePacket, headerLength, putUint32, h32]
  omega

theorem completePacket_eq_of_lt (r : customResponseRowsKeyValues) (d : List Byte)
    (h : d.length < 2 ^ 24) :
    (r.completePacket d).2 =
      [d.length % 256, d.length / 256 % 256, d.length / 65536, (r.counter + 1) % 256] ++ d := by
  have h32 : uint32 d.length = d.length := uint32_of_lt (by omega)
  have hhi : d.length / 65536 % 256 = d.length / 65536 := Nat.mod_eq_of_lt (by omega)
  simp [customResponseRowsKeyValues.completePacket, putUint32, h32, hhi, uint8_uint_wrap]

theorem rowPayload_length_lt (key value : List Byte) (hk : key.length < 65536)
    (hv : value.length < 65536) :
    (getLengEncStr key ++ getLengEncStr value).length < 2 ^ 24 := by
  have h1 := getLengEncStr_length_le key
  have h2 := getLengEncStr_length_le value
  rw [List.length_append]
  omega

theorem columnDefPayload_length_lt (schema table column : List Byte)
    (hs : schema.length < 65536) (ht : table.length < 65536) (hc : column.length < 65536) :
    (columnDefPayload schema table column).length < 2 ^ 24 := by
  have h0 := getLengEncStr_length_le (literal "def")
  have h1 := getLengEncStr_length_le schema
  have h2 := getLengEncStr_length_le table
  have h3 := getLengEncStr_length_le column
  have hd : (literal "def").length = 3 := by decide
  simp only [columnDefPayload, List.length_append, List.length_cons, List.length_nil]
  omega

/-- C13: for schema, table and column each shorter than 65536 bytes,
`getColumnDefPacket` is one packet framed by `completePacket`, which moves
the counter on by one, with the payload "def", schema, table twice and column
twice, each length-encoded, then 0x0C, 21 00 FD FF 02 00, the type byte 0xFC
and 10 00 00 00 00; the block after 0x0C has 12 = 0x0C bytes. -/
theorem getColumnDefPacket_layout (r : customResponseRowsKeyValues)
    (schema table column : List Byte)
    (hs : schema.length < 65536) (ht : table.length < 65536) (hc : column.length < 65536) :
    r.getColumnDefPacket schema table column =
      r.completePacket
        (getLengEncStr (literal "def") ++ getLengEncStr schema ++ getLengEncStr table ++
          getLengEncStr table ++ getLengEncStr column ++ getLengEncStr column ++
          [0x0C] ++ [0x21, 0x00, 0xFD, 0xFF, 0x02, 0x00] ++ [0xFC] ++
          [0x10, 0x00, 0x00, 0x00, 0x00]) ∧
    (r.getColumnDefPacket schema table column).2.drop 4 =
      getLengEncStr (literal "def") ++ getLengEncStr schema ++ getLengEncStr table ++
        getLengEncStr table ++ getLengEncStr column ++ getLengEncStr column ++
        [0x0C] ++ [0x21, 0x00, 0xFD, 0xFF, 0x02, 0x00] ++ [0xFC] ++
        [0x10, 0x00, 0x00, 0x00, 0x00] ∧
    headerLength (r.getColumnDefPacket schema table column).2 =
      ((r.getColumnDefPacket schema table column).2.drop 4).length ∧
    sequenceId (r.getColumnDefPacket schema table column).2 = (r.counter + 1) % 256 ∧
    (r.getColumnDefPacket schema table column).1.counter = (r.counter + 1) % uintSize ∧
    (r.counter + 1 < uintSize →
      (r.getColumnDefPacket schema table column).1.counter = r.counter + 1) ∧
    ([0x21, 0x00, 0xFD, 0xFF, 0x02, 0x00] ++ [0xFC] ++
      [0x10, 0x00, 0x00, 0x00, 0x00] : List Byte).length = 0x0C := by
  have hlt := columnDefPayload_length_lt schema table column hs ht hc
  have heq := getColumnDefPacket_eq r schema table column
  refine ⟨heq, ?_, ?_, ?_, ?_, ?_, rfl⟩
  · rw [heq, completePacket_drop_header]
    rfl
  · rw [heq, completePacket_drop_header, completePacket_headerLength _ _ hlt]
  · rw [heq, completePacket_sequenceId]
  · rw [heq, completePacket_counter]
  · intro hlt'
    rw [heq, completePacket_counter]
    exact Nat.mod_eq_of_lt hlt'

set_option maxRecDepth 20000 in
/-- Witness of C13: the definition of the column "Key" framed at counter 1. -/
theorem getColumnDefPacket_layout_witness :
    (customResponseRowsKeyValues.getColumnDefPacket ⟨[], 1, none⟩
        (literal "BC") (literal "CustomResponse") (literal "Key")).2 =
      [58, 0, 0, 2, 3, 100, 101, 102, 2, 66, 67,
        14, 67, 117, 115, 116, 111, 109, 82, 101, 115, 112, 111, 110, 115, 101,
        14, 67, 117, 115, 116, 111, 109, 82, 101, 115, 112, 111, 110, 115, 101,
        3, 75, 101, 121, 3, 75, 101, 121,
        0x0C, 0x21, 0x00, 0xFD, 0xFF, 0x02, 0x00, 0xFC, 0x10, 0x00, 0x00, 0x00, 0x00] :=
  (congrArg Prod.snd (getColumnDefPacket_layout ⟨[], 1, none⟩
    (literal "BC") (literal "CustomResponse") (literal "Key")
    (by decide) (by decide) (by decide)).1).trans (by decide)

/-- C18: for a key and a value each shorter than 65536 bytes the payload of
the row packet has fewer than 2^24 bytes and the 3-byte length header of the
packet equals its length; the same holds for the column definition packet
when schema, table and column are each shorter than 65536 bytes. -/
theorem row_and_columnDef_header_exact (r : customResponseRowsKeyValues) :
    (∀ key value : List Byte, key.length < 65536 → value.length < 65536 →
      (r.getRowData key value).2.drop 4 = getLengEncStr key ++ getLengEncStr value ∧
      ((r.getRowData key value).2.drop 4).length < 2 ^ 24 ∧
      headerLength (r.getRowData key value).2 = ((r.getRowData key value).2.drop 4).length) ∧
    (∀ schema table column : List Byte,
      schema.length < 65536 → table.length < 65536 → column.length < 65536 →
      ((r.getColumnDefPacket schema table column).2.drop 4).length < 2 ^ 24 ∧
      headerLength (r.getColumnDefPacket schema table column).2 =
        ((r.getColumnDefPacket schema table column).2.drop 4).length) := by
  constructor
  · intro key value hk hv
    have hlt := rowPayload_length_lt key value hk hv
    have heq : r.getRowData key value =
        r.completePacket (getLengEncStr key ++ getLengEncStr value) := rfl
    rw [heq, completePacket_drop_header, completePacket_headerLength _ _ hlt]
    exact ⟨rfl, hlt, rfl⟩
  · intro schema table column hs ht hc
    have hlt := columnDefPayload_length_lt schema table column hs ht hc
    rw [getColumnDefPacket_eq, completePacket_drop_header,
      completePacket_headerLength _ _ hlt]
    exact ⟨hlt, rfl⟩

/-- Witness of C18: the row ("k", "v") framed at counter 4 has the header
length 4 and a payload of 4 bytes. -/
theorem row_and_columnDef_header_exact_witness :
    headerLength (customResponseRowsKeyValues.getRowData ⟨[], 4, none⟩
      (literal "k") (literal "v")).2 = 4 ∧
    ((customResponseRowsKeyValues.getRowData ⟨[], 4, none⟩
      (literal "k") (literal "v")).2.drop 4).length = 4 :=
  ⟨((row_and_columnDef_header_exact ⟨[], 4, none⟩).1 (literal "k") (literal "v")
      (by decide) (by decide)).2.2.trans (by decide),
    by decide⟩

/-- C19: whatever the key and the value, the payload of a row packet is not
empty and its first byte is at most 0xFC, so it is neither 0xFE, the first
byte of the legacy EOF and of the short acknowledgement, nor 0xFF, the error
marker. -/
theorem rowData_first_byte (r : customResponseRowsKeyValues) (key value : List Byte) :
    (∃ b t, (r.getRowData key value).2.drop 4 = b :: t ∧ b ≤ 0xFC ∧ b ≠ 0xFE ∧ b ≠ 0xFF ∧
      b ≠ responseErr) ∧
    legacyEOF.head? = some 0xFE ∧ shortOK.head? = some 0xFE ∧ responseErr = 0xFF := by
  refine ⟨?_, rfl, rfl, rfl⟩
  obtain ⟨b, t, hbt, hb⟩ := getLengEncStr_head key
  have heq : r.getRowData key value =
      r.completePacket (getLengEncStr key ++ getLengEncStr value) := rfl
  refine ⟨b, t ++ getLengEncStr value, ?_, hb, ?_, ?_, ?_⟩
  · rw [heq, completePacket_drop_header, hbt]
    rfl
  · intro h
    subst h
    exact absurd hb (by decide)
  · intro h
    subst h
    exact absurd hb (by decide)
  · intro h
    subst h
    exact absurd hb (by decide)

/-! ## Independence from the initial counter -/

theorem framePackets_rows (r : customResponseRowsKeyValues) (ps : List (List Byte)) :
    (framePackets r ps).1.rows = r.rows := by
  induction ps generalizing r with
  | nil => simp [framePackets]
  | cons d ds ih => simp [framePackets, ih, completePacket_rows]

theorem getPacket_reset (mask c : Nat) (r : customResponseRowsKeyValues) :
    customResponseRowsKeyValues.getPacket mask { r with counter := c } = r.getPacket mask :=
  rfl

theorem getPacket_some (mask : Nat) (r r₁ : customResponseRowsKeyValues) (b₁ : List Byte)
    (h : r.getPacket mask = some (r₁, b₁)) :
    ∃ p dep, r.protocol = some p ∧ p.deprecateEOFSet mask = some dep ∧
      r₁ = (framePackets { r with counter := 0 } (resultSetPayloads dep r.rows)).1 ∧
      b₁ = (framePackets { r with counter := 0 } (resultSetPayloads dep r.rows)).2.flatten := by
  obtain ⟨rows, counter, protocol⟩ := r
  cases protocol with
  | none =>
    simp [customResponseRowsKeyValues.getPacket, getColumnDefPacket_eq,
      completePacket_protocol] at h
  | some p =>
    cases hd : p.deprecateEOFSet mask with
    | none =>
      simp [customResponseRowsKeyValues.getPacket, getColumnDefPacket_eq,
        completePacket_protocol, hd] at h
    | some dep =>
      rw [getPacket_eq_of_dep mask _ p dep rfl hd] at h
      simp only [Option.some.injEq, Prod.mk.injEq] at h
      exact ⟨p, dep, rfl, hd, h.1.symm, h.2.symm⟩

theorem framePackets_first_sequenceId (r : customResponseRowsKeyValues) (d : List Byte)
    (ds : List (List Byte)) :
    sequenceId (framePackets r (d :: ds)).2.flatten = (r.counter + 1) % 256 := by
  simp [framePackets, customResponseRowsKeyValues.completePacket, sequenceId,
    uint8_uint_wrap]

/-- C14: the result of `getPacket` does not depend on the counter before the
call: any two initial counter values give the same output, so a second call
on the response left by the first returns the same bytes, and the first
packet carries the sequence id 1 each time. -/
theorem getPacket_counter_independent (mask : Nat) (r : customResponseRowsKeyValues) :
    (∀ c₁ c₂ : Nat,
      customResponseRowsKeyValues.getPacket mask { r with counter := c₁ } =
        customResponseRowsKeyValues.getPacket mask { r with counter := c₂ }) ∧
    (∀ (r₁ : customResponseRowsKeyValues) (b₁ : List Byte),
      r.getPacket mask = some (r₁, b₁) →
        r₁.getPacket mask = some (r₁, b₁) ∧ sequenceId b₁ = 1) := by
  constructor
  · intro c₁ c₂
    exact (getPacket_reset mask c₁ r).trans (getPacket_reset mask c₂ r).symm
  · intro r₁ b₁ h
    obtain ⟨p, dep, hp, hd, hr₁, hb₁⟩ := getPacket_some mask r r₁ b₁ h
    have hrows : r₁.rows = r.rows := by rw [hr₁, framePackets_rows]
    have hprot : r₁.protocol = r.protocol := by rw [hr₁, framePackets_protocol]
    have hreset : ({ r₁ with counter := 0 } : customResponseRowsKeyValues) =
        { r with counter := 0 } := by
      rw [hrows, hprot]
    constructor
    · rw [getPacket_eq_of_dep mask r₁ p dep (hprot.trans hp) hd, hreset, hrows, ← hr₁, ← hb₁]
    · rw [hb₁]
      cases dep <;> simp only [resultSetPayloads, List.cons_append] <;>
        rw [framePackets_first_sequenceId] <;> rfl

set_option maxRecDepth 20000 in
/-- Witness of C14: a response with one row, encoded from counter 9, gives a
result that encoding the response it leaves gives again, and its first
packet has the sequence id 1. -/
theorem getPacket_counter_independent_witness :
    ∃ out, customResponseRowsKeyValues.getPacket 0x01000000
        ⟨[⟨literal "k", literal "v"⟩], 9, some ⟨10, some ⟨0⟩, some ⟨0⟩⟩⟩ = some out ∧
      customResponseRowsKeyValues.getPacket 0x01000000 out.1 = some out ∧
      sequenceId out.2 = 1 := by
  cases hout : customResponseRowsKeyValues.getPacket 0x01000000
      ⟨[⟨literal "k", literal "v"⟩], 9, some ⟨10, some ⟨0⟩, some ⟨0⟩⟩⟩ with
  | none => exact absurd hout (by decide)
  | some out =>
    exact ⟨out, rfl, (getPacket_counter_independent 0x01000000
      ⟨[⟨literal "k", literal "v"⟩], 9, some ⟨10, some ⟨0⟩, some ⟨0⟩⟩⟩).2 out.1 out.2 hout⟩

/-! ## Oversize strings and messages -/

/-- C15: for a string of n ≥ 65536 bytes `getLengEncStr` still uses the
2-byte form with the two low bytes of n: 0xFC, n mod 256, (n div 256) mod
256, then all n bytes; the prefix states n mod 65536, which is not n, and a
string of n + 65536 bytes gets the same prefix. -/
theorem getLengEncStr_wraps (s : List Byte) (h : 65536 ≤ s.length) :
    getLengEncStr s = 0xFC :: s.length % 256 :: s.length / 256 % 256 :: s ∧
    (getLengEncStr s).length = 3 + s.length ∧
    (getLengEncStr s).getD 1 0 + 256 * (getLengEncStr s).getD 2 0 = s.length % 65536 ∧
    s.length % 65536 ≠ s.length ∧
    (∀ s₂ : List Byte, s₂.length = s.length + 65536 →
      (getLengEncStr s₂).take 3 = (getLengEncStr s).take 3) := by
  have henc : ∀ t : List Byte, 251 < t.length →
      getLengEncStr t = 0xFC :: t.length % 256 :: t.length / 256 % 256 :: t := by
    intro t ht
    have h1 : t.length % 4294967296 % 256 = t.length % 256 := by omega
    have h2 : t.length % 4294967296 / 256 % 256 = t.length / 256 % 256 := by omega
    simp [getLengEncStr, ht, putUint32, uint32, h1, h2]
  have hs := henc s (by omega)
  refine ⟨hs, ?_, ?_, ?_, ?_⟩
  · rw [hs]
    simp
    omega
  · rw [hs]
    show s.length % 256 + 256 * (s.length / 256 % 256) = s.length % 65536
    omega
  · omega
  · intro s₂ h₂
    rw [hs, henc s₂ (by omega), h₂]
    have h1 : (s.length + 65536) % 256 = s.length % 256 := by omega
    have h2 : (s.length + 65536) / 256 % 256 = s.length / 256 % 256 := by omega
    simp [h1, h2]

/-- Witness of C15: a string of 65537 bytes gets the prefix FC 01 00, which
states the length 1. -/
theorem getLengEncStr_wraps_witness :
    65536 ≤ (List.replicate 65537 (0 : Byte)).length ∧
    (getLengEncStr (List.replicate 65537 0)).getD 1 0 +
      256 * (getLengEncStr (List.replicate 65537 0)).getD 2 0 = 1 :=
  ⟨by rw [List.length_replicate]; decide,
    ((getLengEncStr_wraps (List.replicate 65537 0)
      (by rw [List.length_replicate]; decide)).2.2.1).trans
      (by rw [List.length_replicate])⟩

/-- C17: the error packet never truncates the message: for a message of any
length m and any code the packet has 7 + m bytes and ends with the whole
message; its 3-byte header holds (m + 3) mod 2^24, which is not the payload
length m + 3 once m + 3 ≥ 2^24. -/
theorem customResponseError_getPacket_no_truncation (msg : List Byte) (code : Nat) :
    (customResponseError.getPacket ⟨msg, code⟩).length = 7 + msg.length ∧
    (customResponseError.getPacket ⟨msg, code⟩).drop 7 = msg ∧
    headerLength (customResponseError.getPacket ⟨msg, code⟩) = (msg.length + 3) % 2 ^ 24 ∧
    (2 ^ 24 ≤ msg.length + 3 →
      headerLength (customResponseError.getPacket ⟨msg, code⟩) ≠ msg.length + 3) := by
  have hhdr : headerLength (customResponseError.getPacket ⟨msg, code⟩) =
      (msg.length + 3) % 2 ^ 24 := by
    simp [customResponseError.getPacket, headerLength, putUint32, uint32]
    omega
  refine ⟨?_, ?_, hhdr, ?_⟩
  · simp [customResponseError.getPacket]
    omega
  · simp [customResponseError.getPacket]
  · intro hbig
    rw [hhdr]
    omega

/-- Witness of C17: a message of 2^24 - 3 bytes gives the header length 0. -/
theorem customResponseError_getPacket_no_truncation_witness :
    2 ^ 24 ≤ (List.replicate 16777213 (0 : Byte)).length + 3 ∧
    headerLength (customResponseError.getPacket ⟨List.replicate 16777213 0, 1064⟩) ≠
      (List.replicate 16777213 (0 : Byte)).length + 3 :=
  ⟨by rw [List.length_replicate]; decide,
    (customResponseError_getPacket_no_truncation (List.replicate 16777213 0) 1064).2.2.2
      (by rw [List.length_replicate]; decide)⟩

/-! ## Repeated query replacement -/

/-- C20: for an original request `o` of at least 5 bytes, replacing the query
of the packet built from `o` with `q₁` by `q₂` gives the bytes that replacing
the query of `o` by `q₂` gives; the result depends on `o` only through its
bytes 2, 3 and 4. -/
theorem replaceQuery_absorbs (protocol : Option protocolInfo) (q₁ q₂ : List Byte)
    (o : ByteSlice) (h : 5 ≤ o.elems.length) :
    (∃ p₁, customResponseReplaceQuery.getPacket ⟨protocol, q₁, o⟩ = some p₁ ∧
      ∀ spare : List Byte,
        customResponseReplaceQuery.getPacket ⟨protocol, q₂, ⟨p₁, spare⟩⟩ =
          customResponseReplaceQuery.getPacket ⟨protocol, q₂, o⟩) ∧
    (∀ o₂ : ByteSlice, 5 ≤ o₂.elems.length →
      o₂.elems.getD 2 0 = o.elems.getD 2 0 → o₂.elems.getD 3 0 = o.elems.getD 3 0 →
      o₂.elems.getD 4 0 = o.elems.getD 4 0 →
      customResponseReplaceQuery.getPacket ⟨protocol, q₂, o₂⟩ =
        customResponseReplaceQuery.getPacket ⟨protocol, q₂, o⟩) := by
  obtain ⟨elems, spare₀⟩ := o
  obtain ⟨b0, b1, b2, b3, b4, rest, rfl⟩ := exists_cons5 elems h
  constructor
  · refine ⟨_, replaceQuery_getPacket_cons protocol q₁ b0 b1 b2 b3 b4 rest spare₀, ?_⟩
    intro spare
    rw [List.cons_append, List.cons_append, List.cons_append, List.cons_append,
      List.cons_append, replaceQuery_getPacket_cons, replaceQuery_getPacket_cons]
  · intro o₂ h₂ h2 h3 h4
    obtain ⟨elems₂, spare₂⟩ := o₂
    obtain ⟨c0, c1, c2, c3, c4, rest₂, rfl⟩ := exists_cons5 elems₂ h₂
    simp only [List.getD_cons_succ, List.getD_cons_zero] at h2 h3 h4
    rw [replaceQuery_getPacket_cons, replaceQuery_getPacket_cons, h2, h3, h4]

/-- Witness of C20: 0B 00 00 00 03 "SELECT" rewritten with "SELECT 1" and
then with "SELECT 22" is the packet of the direct rewrite with "SELECT 22". -/
theorem replaceQuery_absorbs_witness :
    customResponseReplaceQuery.getPacket
        ⟨none, literal "SELECT 1", ⟨[0x0B, 0, 0, 0, 3] ++ literal "SELECT", []⟩⟩ =
      some ([0x09, 0, 0, 0, 3] ++ literal "SELECT 1") ∧
    customResponseReplaceQuery.getPacket
        ⟨none, literal "SELECT 22", ⟨[0x09, 0, 0, 0, 3] ++ literal "SELECT 1", []⟩⟩ =
      some ([0x0A, 0, 0, 0, 3] ++ literal "SELECT 22") :=
  ⟨by decide,
    ((replaceQuery_absorbs none (literal "SELECT 22") (literal "SELECT 22")
      ⟨[0x09, 0, 0, 0, 3] ++ literal "SELECT 1", []⟩ (by decide)).2
      ⟨[0x0B, 0, 0, 0, 3] ++ literal "SELECT", []⟩ (by decide) (by decide) (by decide)
      (by decide)).symm.trans (by decide)⟩

/-! ## Round trip of a key/value result set -/

theorem readLengEncStr_getLengEncStr (s rest : List Byte) (h : s.length < 65536) :
    readLengEncStr (getLengEncStr s ++ rest) = some (s, rest) := by
  by_cases hc : s.length > 251
  · have h32 : uint32 s.length = s.length := uint32_of_lt (by omega)
    have hval : s.length % 256 + 256 * (s.length / 256 % 256) = s.length := by omega
    simp [getLengEncStr, hc, putUint32, h32, readLengEncStr, hval]
  · have h8 : s.length % 256 = s.length := Nat.mod_eq_of_lt (by omega)
    have hne : ¬ s.length = 252 := by omega
    have hle : s.length ≤ 251 := by omega
    simp [getLengEncStr, hc, uint8, h8, readLengEncStr, hne, hle]

theorem decodeRow_rowPayload (row : CustomResponseKeyValue) (hk : row.Key.length < 65536)
    (hv : row.Value.length < 65536) : decodeRow (rowPayload row) = some row := by
  have h2 := readLengEncStr_getLengEncStr row.Value [] hv
  rw [List.append_nil] at h2
  simp [decodeRow, rowPayload, readLengEncStr_getLengEncStr row.Key _ hk, h2]

theorem rowPayload_head_ne (row : CustomResponseKeyValue) :
    (rowPayload row).head? ≠ some 0xFE := by
  obtain ⟨b, t, hbt, hb⟩ := getLengEncStr_head row.Key
  simp only [rowPayload, hbt, List.cons_append, List.head?_cons, ne_eq, Option.some.injEq]
  intro h
  subst h
  exact absurd hb (by decide)

theorem decodeRows_rowPayloads (rows : List CustomResponseKeyValue) (term : List Byte)
    (hterm : term.head? = some 0xFE)
    (hrows : ∀ row ∈ rows, row.Key.length < 65536 ∧ row.Value.length < 65536) :
    decodeRows (rows.map rowPayload ++ [term]) = some rows := by
  induction rows with
  | nil => simp [decodeRows, hterm]
  | cons row rest ih =>
    have hrow := hrows row (List.mem_cons_self _ _)
    have hrest := ih (fun x hx => hrows x (List.mem_cons_of_mem _ hx))
    simp [decodeRows, rowPayload_head_ne row, decodeRow_rowPayload row hrow.1 hrow.2, hrest]

theorem splitPackets_framePackets (fuel : Nat) (r : customResponseRowsKeyValues)
    (ps : List (List Byte)) (hf : ps.length ≤ fuel) (hlen : ∀ d ∈ ps, d.length < 2 ^ 24) :
    splitPackets fuel (framePackets r ps).2.flatten = some ps := by
  induction ps generalizing fuel r with
  | nil => cases fuel <;> simp [framePackets, splitPackets]
  | cons d ds ih =>
    cases fuel with
    | zero => simp at hf
    | succ f =>
      have hd := hlen d (List.mem_cons_self _ _)
      have hval : d.length % 256 + 256 * (d.length / 256 % 256) + 65536 * (d.length / 65536) =
          d.length := by omega
      have hrest := ih f (r.completePacket d).1 (by simpa using hf)
        (fun x hx => hlen x (List.mem_cons_of_mem _ hx))
      have hflat : (framePackets r (d :: ds)).2.flatten =
          d.length % 256 :: d.length / 256 % 256 :: d.length / 65536 ::
            (r.counter + 1) % 256 ::
              (d ++ (framePackets (r.completePacket d).1 ds).2.flatten) := by
        simp only [framePackets, List.flatten_cons, completePacket_eq_of_lt r d hd,
          List.cons_append, List.nil_append, List.append_assoc]
      rw [hflat]
      simp only [splitPackets, hval, List.length_append, Nat.le_add_right, if_true,
        List.drop_left, List.take_left, hrest, Option.map_some']

theorem framePackets_flatten_length_ge (r : customResponseRowsKeyValues)
    (ps : List (List Byte)) : ps.length ≤ (framePackets r ps).2.flatten.length := by
  induction ps generalizing r with
  | nil => simp [framePackets]
  | cons d ds ih =>
    have h := ih (r.completePacket d).1
    have hpk : 4 ≤ (r.completePacket d).2.length := by
      simp [customResponseRowsKeyValues.completePacket]
    simp only [framePackets, List.flatten_cons, List.length_append, List.length_cons]
    omega

theorem resultSetPayloads_length_lt (dep : Bool) (rows : List CustomResponseKeyValue)
    (hrows : ∀ row ∈ rows, row.Key.length < 65536 ∧ row.Value.length < 65536) :
    ∀ d ∈ resultSetPayloads dep rows, d.length < 2 ^ 24 := by
  have hcol : ∀ column : List Byte, column.length < 65536 →
      (columnDefPayload (literal "BC") (literal "CustomResponse") column).length < 2 ^ 24 :=
    fun column hc => columnDefPayload_length_lt _ _ _ (by decide) (by decide) hc
  intro d hd
  simp only [resultSetPayloads, List.mem_append, List.mem_cons, List.mem_map,
    List.mem_singleton, List.not_mem_nil, or_false] at hd
  rcases hd with (((h | h | h) | h) | ⟨row, hmem, h⟩) | h
  · subst h
    decide
  · subst h
    exact hcol _ (by decide)
  · subst h
    exact hcol _ (by decide)
  · cases dep
    · simp only [Bool.false_eq_true, if_false, List.mem_singleton] at h
      subst h
      decide
    · simp at h
  · subst h
    exact rowPayload_length_lt _ _ (hrows row hmem).1 (hrows row hmem).2
  · subst h
    cases dep <;> decide

/-- C12: the reference decoder `decodeResultSet` (split by the 3-byte
length headers, skip the column count, the two column definitions and the
legacy EOF when present, read each packet as two length-encoded strings up
to a payload that begins with 0xFE) returns the original rows, in their
order, from the output of `getPacket`, for every capability record and every
list of rows whose keys and values are shorter than 65536 bytes. -/
theorem decodeResultSet_getPacket (mask : Nat) (r : customResponseRowsKeyValues)
    (p : protocolInfo) (dep : Bool) (hp : r.protocol = some p)
    (hd : p.deprecateEOFSet mask = some dep)
    (hrows : ∀ row ∈ r.rows, row.Key.length < 65536 ∧ row.Value.length < 65536) :
    ∃ out, r.getPacket mask = some out ∧ decodeResultSet out.2 = some r.rows := by
  refine ⟨_, getPacket_eq_of_dep mask r p dep hp hd, ?_⟩
  have hsplit := splitPackets_framePackets
    (framePackets { r with counter := 0 } (resultSetPayloads dep r.rows)).2.flatten.length
    { r with counter := 0 } (resultSetPayloads dep r.rows)
    (framePackets_flatten_length_ge _ _) (resultSetPayloads_length_lt dep r.rows hrows)
  simp only [decodeResultSet, hsplit]
  cases dep
  · have hdec := decodeRows_rowPayloads r.rows legacyEOF rfl hrows
    simp [resultSetPayloads, hdec]
  · have hdec := decodeRows_rowPayloads r.rows shortOK rfl hrows
    cases hr : r.rows with
    | nil => simp [resultSetPayloads, hr, decodeRows, shortOK, legacyEOF]
    | cons row rest =>
      rw [hr] at hdec
      have hne : rowPayload row ≠ legacyEOF := rowPayload_ne_legacyEOF row
      simp only [List.map_cons, List.cons_append] at hdec
      simp [resultSetPayloads, hr, hne, hdec]

set_option maxRecDepth 20000 in
/-- Witness of C12: the two rows ("k", "v") and ("", "x") are read back from
the encoded result set. -/
theorem decodeResultSet_getPacket_witness :
    protocolInfo.deprecateEOFSet 0x01000000 ⟨10, some ⟨0⟩, some ⟨0⟩⟩ = some false ∧
    ∃ out, customResponseRowsKeyValues.getPacket 0x01000000
        ⟨[⟨literal "k", literal "v"⟩, ⟨[], literal "x"⟩], 0,
          some ⟨10, some ⟨0⟩, some ⟨0⟩⟩⟩ = some out ∧
      decodeResultSet out.2 = some [⟨literal "k", literal "v"⟩, ⟨[], literal "x"⟩] :=
  ⟨by decide,
    decodeResultSet_getPacket 0x01000000
      ⟨[⟨literal "k", literal "v"⟩, ⟨[], literal "x"⟩], 0, some ⟨10, some ⟨0⟩, some ⟨0⟩⟩⟩
      ⟨10, some ⟨0⟩, some ⟨0⟩⟩ false rfl (by decide) (by decide)⟩

end dbproxy
